import Mathlib

/-!
Verification of the Ashlock fingerprint core (`axelrod/fingerprint.py`).

Python floats are modelled as exact rationals (`ℚ`).  `np.arange(0, 1, step)`
is modelled by its documented semantics: `⌈1/step⌉` values `0, step, 2·step, …`.
Player classes are abstract: a strategy class `S` and a probe class `P` are
type parameters, and the JossAnn transformer is modelled by recording the
parameter pair it was built with together with the wrapped probe class.
A Python `dict` is modelled as an association list in insertion order, and a
`KeyError` as `none`.
-/

/-- A coordinate over the unit square, `Point = namedtuple('Point', 'x y')`. -/
abbrev Point := ℚ × ℚ

/-- The player produced by `JossAnnTransformer((p, q))(probe)()`: it carries
the parameter pair the transformer was built with and the wrapped probe
class. -/
structure JossAnnPlayer (P : Type) where
  params : ℚ × ℚ
  probe : P

/-- The function `create_jossann(coordinate, probe)` of `fingerprint.py`: if
the coordinate sums to more than 1 the parameters are flipped and subtracted
from 1, otherwise they are used as they are. -/
def create_jossann {P : Type} (coordinate : Point) (probe : P) : JossAnnPlayer P :=
  let x := coordinate.1
  let y := coordinate.2
  if x + y > 1 then
    { params := (1 - y, 1 - x), probe := probe }
  else
    { params := (x, y), probe := probe }

/-- The value `np.arange(0, 1, step)` for `step > 0`: the `⌈1/step⌉` values
`0, step, 2·step, …`, in exact rational arithmetic. -/
def arange (step : ℚ) : List ℚ :=
  (List.range (Int.toNat ⌈1 / step⌉)).map (fun i : ℕ => (i : ℚ) * step)

/-- The function `create_coordinates(step)` of `fingerprint.py`: all
`Point(j, k)` with `j` drawn by the outer and `k` by the inner
`np.arange(0, 1, step)` loop. -/
def create_coordinates (step : ℚ) : List Point :=
  (arange step).flatMap (fun j => (arange step).map (fun k => (j, k)))

/-- The function `create_probes(probe, coordinates)` of `fingerprint.py`. -/
def create_probes {P : Type} (probe : P) (coordinates : List Point) :
    List (JossAnnPlayer P) :=
  coordinates.map (fun coordinate => create_jossann coordinate probe)

/-- The function `create_edges(coordinates)` of `fingerprint.py`: the edge at
index `i` is `(1, i + 2)` when the coordinate sums to more than 1 and
`(0, i + 2)` otherwise. -/
def create_edges (coordinates : List Point) : List (ℕ × ℕ) :=
  coordinates.enum.map (fun p =>
    if p.2.1 + p.2.2 > 1 then (1, p.1 + 2) else (0, p.1 + 2))

/-- The value `np.mean(xs)` of a list of rationals. -/
def npMean (xs : List ℚ) : ℚ := xs.sum / (xs.length : ℚ)

/-- The list comprehension of `generate_data`:
`[np.mean([compute_final_score_per_turn(scores) for scores in interactions[edge]]) for edge in edges]`.
`interactions` is a partial map (a missing key raises `KeyError`, modelled as
`none`) and `fspt` abstracts the external `compute_final_score_per_turn`. -/
def edge_scores {R : Type} (interactions : ℕ × ℕ → Option (List R))
    (fspt : R → ℚ) : List (ℕ × ℕ) → Option (List ℚ)
  | [] => some []
  | e :: rest =>
    match interactions e with
    | none => none
    | some recs =>
      match edge_scores interactions fspt rest with
      | none => none
      | some tail => some (npMean (recs.map fspt) :: tail)

/-- One Python `dict` binding step `d[k] = v`: overwrite in place when the key
is present, append otherwise. -/
def dictInsert {K V : Type} [DecidableEq K] (d : List (K × V)) (k : K) (v : V) :
    List (K × V) :=
  if d.any (fun p => decide (p.1 = k)) then
    d.map (fun p => if p.1 = k then (k, v) else p)
  else
    d ++ [(k, v)]

/-- Python `dict(pairs)`: bindings in insertion order, a later duplicate key
overwriting in place. -/
def pyDict {K V : Type} [DecidableEq K] (pairs : List (K × V)) : List (K × V) :=
  pairs.foldl (fun d p => dictInsert d p.1 p.2) []

/-- Python `d[k]` on the association-list model of a `dict`. -/
def dictGet {K V : Type} [DecidableEq K] (d : List (K × V)) (k : K) : Option V :=
  match d with
  | [] => none
  | p :: rest => if p.1 = k then some p.2 else dictGet rest k

/-- The function `generate_data(interactions, coordinates, edges)` of
`fingerprint.py`: the per-edge mean scores, zipped with the coordinates into a
`dict`; a missing edge key raises `KeyError`, modelled as `none`. -/
def generate_data {R : Type} (interactions : ℕ × ℕ → Option (List R))
    (fspt : R → ℚ) (coordinates : List Point) (edges : List (ℕ × ℕ)) :
    Option (List (Point × ℚ)) :=
  match edge_scores interactions fspt edges with
  | none => none
  | some scores => some (pyDict (coordinates.zip scores))

/-- The constructor state of `AshlockFingerprint`: the strategy class and the
probe class. -/
structure AshlockFingerprint (S P : Type) where
  strategy : S
  probe : P

/-- A member of the tournament roster built by
`construct_tournament_elements`: the `self.strategy()` instance, the
`DualTransformer()(self.strategy)()` instance, or a JossAnn probe. -/
inductive RosterMember (S P : Type) where
  | strategyPlayer : S → RosterMember S P
  | dualPlayer : S → RosterMember S P
  | probePlayer : JossAnnPlayer P → RosterMember S P

/-- The method `AshlockFingerprint.construct_tournament_elements(step)`: the
edges together with the roster `[self.strategy(), dual] + probe_players`. -/
def construct_tournament_elements {S P : Type} (fp : AshlockFingerprint S P)
    (step : ℚ) : List (ℕ × ℕ) × List (RosterMember S P) :=
  let probe_coordinates := create_coordinates step
  let edges := create_edges probe_coordinates
  let dual : RosterMember S P := RosterMember.dualPlayer fp.strategy
  let probe_players :=
    (create_probes fp.probe probe_coordinates).map RosterMember.probePlayer
  (edges, [RosterMember.strategyPlayer fp.strategy, dual] ++ probe_players)

/-- The list comprehension `[self.data[coord] for coord in self.coordinates]`
of `AshlockFingerprint.plot`, with `KeyError` modelled as `none`. -/
def ordered_data (data : List (Point × ℚ)) : List Point → Option (List ℚ)
  | [] => some []
  | c :: rest =>
    match dictGet data c with
    | none => none
    | some v =>
      match ordered_data data rest with
      | none => none
      | some tail => some (v :: tail)

/-- The row-major rows of `np.reshape(xs, (r, c))`. -/
def reshapeRows (xs : List ℚ) (c : ℕ) : ℕ → List (List ℚ)
  | 0 => []
  | r + 1 => xs.take c :: reshapeRows (xs.drop c) c r

/-- The call `np.reshape(xs, (r, c))`: raises (modelled as `none`) unless the
number of elements matches the requested shape. -/
def npReshape (xs : List ℚ) (r c : ℕ) : Option (List (List ℚ)) :=
  if xs.length = r * c then some (reshapeRows xs c r) else none

/-- The orchestrator state read by `AshlockFingerprint.plot`: `self.step`,
`self.coordinates` and `self.data`. -/
structure FingerprintState where
  step : ℚ
  coordinates : List Point
  data : List (Point × ℚ)

/-- The method `AshlockFingerprint.plot`: `size = (1 / self.step) // 1`, the
scores ordered by `self.coordinates`, reshaped to `(size, size)`; handing the
grid to the external image renderer is outside the model. -/
def plot (st : FingerprintState) : Option (List (List ℚ)) :=
  let size := Int.toNat ⌊(1 : ℚ) / st.step⌋
  match ordered_data st.data st.coordinates with
  | none => none
  | some xs => npReshape xs size size

/-- C1: on the unit square, `create_jossann` folds the parameters to
`(1 − y, 1 − x)` when `x + y > 1`, keeps `(x, y)` otherwise, and the
resulting parameters always lie in `[0, 1]²`. -/
theorem create_jossann_canonicalizes {P : Type} (probe : P) (x y : ℚ)
    (hx0 : 0 ≤ x) (hx1 : x ≤ 1) (hy0 : 0 ≤ y) (hy1 : y ≤ 1) :
    (x + y > 1 → (create_jossann (x, y) probe).params = (1 - y, 1 - x)) ∧
    (¬ x + y > 1 → (create_jossann (x, y) probe).params = (x, y)) ∧
    (0 ≤ (create_jossann (x, y) probe).params.1 ∧
      (create_jossann (x, y) probe).params.1 ≤ 1 ∧
      0 ≤ (create_jossann (x, y) probe).params.2 ∧
      (create_jossann (x, y) probe).params.2 ≤ 1) := by
  by_cases h : x + y > 1
  · have hp : (create_jossann (x, y) probe).params = (1 - y, 1 - x) := by
      simp only [create_jossann, h, if_true]
    rw [hp]
    refine ⟨fun _ => rfl, fun h2 => absurd h h2, ?_, ?_, ?_, ?_⟩
    · show (0 : ℚ) ≤ 1 - y
      linarith
    · show (1 : ℚ) - y ≤ 1
      linarith
    · show (0 : ℚ) ≤ 1 - x
      linarith
    · show (1 : ℚ) - x ≤ 1
      linarith
  · have hp : (create_jossann (x, y) probe).params = (x, y) := by
      simp only [create_jossann, h, if_false]
    rw [hp]
    exact ⟨fun h2 => absurd h2 h, fun _ => rfl, hx0, hx1, hy0, hy1⟩

/-- Witness for C1 at the concrete coordinate `(3/4, 3/4)`. -/
theorem create_jossann_canonicalizes_witness :
    ((3 : ℚ)/4 + 3/4 > 1 →
      (create_jossann ((3 : ℚ)/4, (3 : ℚ)/4) (0 : ℕ)).params = (1 - 3/4, 1 - 3/4)) ∧
    (¬ (3 : ℚ)/4 + 3/4 > 1 →
      (create_jossann ((3 : ℚ)/4, (3 : ℚ)/4) (0 : ℕ)).params = (3/4, 3/4)) ∧
    (0 ≤ (create_jossann ((3 : ℚ)/4, (3 : ℚ)/4) (0 : ℕ)).params.1 ∧
      (create_jossann ((3 : ℚ)/4, (3 : ℚ)/4) (0 : ℕ)).params.1 ≤ 1 ∧
      0 ≤ (create_jossann ((3 : ℚ)/4, (3 : ℚ)/4) (0 : ℕ)).params.2 ∧
      (create_jossann ((3 : ℚ)/4, (3 : ℚ)/4) (0 : ℕ)).params.2 ≤ 1) :=
  create_jossann_canonicalizes (0 : ℕ) (3/4) (3/4)
    (by norm_num) (by norm_num) (by norm_num) (by norm_num)

/-- C7: on the unit square the canonicalized parameters sum to at most 1, so
canonicalizing a second time (feeding the parameters back through
`create_jossann`) leaves them unchanged. -/
theorem create_jossann_idempotent {P : Type} (probe : P) (x y : ℚ)
    (_hx0 : 0 ≤ x) (_hx1 : x ≤ 1) (_hy0 : 0 ≤ y) (_hy1 : y ≤ 1) :
    (create_jossann (x, y) probe).params.1 +
      (create_jossann (x, y) probe).params.2 ≤ 1 ∧
    (create_jossann ((create_jossann (x, y) probe).params) probe).params =
      (create_jossann (x, y) probe).params := by
  by_cases h : x + y > 1
  · have hp : (create_jossann (x, y) probe).params = (1 - y, 1 - x) := by
      simp only [create_jossann, h, if_true]
    rw [hp]
    have hsum : (1 - y : ℚ) + (1 - x) ≤ 1 := by linarith
    refine ⟨hsum, ?_⟩
    have hnot : ¬ ((1 - y : ℚ) + (1 - x) > 1) := by linarith
    simp only [create_jossann, hnot, if_false]
  · have hp : (create_jossann (x, y) probe).params = (x, y) := by
      simp only [create_jossann, h, if_false]
    rw [hp]
    refine ⟨by simpa using h, ?_⟩
    simp only [create_jossann, h, if_false]

/-- Witness for C7 at the concrete coordinate `(3/4, 3/4)`. -/
theorem create_jossann_idempotent_witness :
    (create_jossann ((3 : ℚ)/4, (3 : ℚ)/4) (0 : ℕ)).params.1 +
      (create_jossann ((3 : ℚ)/4, (3 : ℚ)/4) (0 : ℕ)).params.2 ≤ 1 ∧
    (create_jossann ((create_jossann ((3 : ℚ)/4, (3 : ℚ)/4) (0 : ℕ)).params)
        (0 : ℕ)).params =
      (create_jossann ((3 : ℚ)/4, (3 : ℚ)/4) (0 : ℕ)).params :=
  create_jossann_idempotent (0 : ℕ) (3/4) (3/4)
    (by norm_num) (by norm_num) (by norm_num) (by norm_num)

/-- C2: `create_edges` keeps the input length and order, the edge at
position `i` is `(1, i + 2)` when the coordinate sums to strictly more than 1
and `(0, i + 2)` otherwise, and in particular the boundary coordinate
`(1/2, 1/2)` gets source 0. -/
theorem create_edges_spec (coordinates : List Point) :
    (create_edges coordinates).length = coordinates.length ∧
    (∀ i : ℕ, (create_edges coordinates)[i]? =
      (coordinates[i]?).map (fun c =>
        (if c.1 + c.2 > 1 then 1 else 0, i + 2))) ∧
    create_edges [((1 : ℚ)/2, (1 : ℚ)/2)] = [(0, 2)] := by
  refine ⟨?_, ?_, ?_⟩
  · simp [create_edges]
  · intro i
    simp only [create_edges, List.getElem?_map, List.getElem?_enum,
      Option.map_map]
    cases coordinates[i]? with
    | none => rfl
    | some c =>
      by_cases hc : c.1 + c.2 > 1 <;>
        simp [hc]
  · simp only [create_edges, List.enum]
    norm_num

theorem arange_length (step : ℚ) :
    (arange step).length = Int.toNat ⌈1 / step⌉ := by
  rw [arange, List.length_map, List.length_range]

theorem cast_lt_one_div (step : ℚ) (_h0 : 0 < step) (i : ℕ)
    (hi : i < Int.toNat ⌈1 / step⌉) : (i : ℚ) < 1 / step := by
  have h1 : (i : ℤ) < ⌈1 / step⌉ := Int.lt_toNat.mp hi
  have h2 : ((i : ℤ) : ℚ) + 1 ≤ ((⌈1 / step⌉ : ℤ) : ℚ) := by
    exact_mod_cast h1
  have h3 : ((⌈1 / step⌉ : ℤ) : ℚ) < 1 / step + 1 := Int.ceil_lt_add_one _
  push_cast at h2
  linarith

theorem mul_step_lt_one (step : ℚ) (h0 : 0 < step) (i : ℕ)
    (hi : i < Int.toNat ⌈1 / step⌉) : (i : ℚ) * step < 1 := by
  have := cast_lt_one_div step h0 i hi
  calc (i : ℚ) * step < (1 / step) * step := by
        exact mul_lt_mul_of_pos_right this h0
    _ = 1 := by field_simp

theorem arange_getElem?_of_lt (step : ℚ) (i : ℕ)
    (hi : i < Int.toNat ⌈1 / step⌉) :
    (arange step)[i]? = some ((i : ℚ) * step) := by
  rw [arange, List.getElem?_map, List.getElem?_range hi]
  rfl

theorem mem_arange_bounds (step : ℚ) (h0 : 0 < step) (a : ℚ)
    (ha : a ∈ arange step) : 0 ≤ a ∧ a < 1 := by
  rw [arange] at ha
  obtain ⟨i, hmem, rfl⟩ := List.mem_map.mp ha
  rw [List.mem_range] at hmem
  exact ⟨by positivity, mul_step_lt_one step h0 i hmem⟩

theorem flatMap_uniform_getElem? {α β : Type} (f : α → List β) (m : ℕ)
    (hm : ∀ a, (f a).length = m) :
    ∀ (l : List α) (i j : ℕ), i < l.length → j < m →
      (l.flatMap f)[i * m + j]? = l[i]?.bind (fun a => (f a)[j]?) := by
  intro l
  induction l with
  | nil =>
    intro i j hi _
    exact absurd hi (Nat.not_lt_zero i)
  | cons a rest ih =>
    intro i j hi hj
    cases i with
    | zero =>
      simp only [List.flatMap_cons, Nat.zero_mul, Nat.zero_add,
        List.getElem?_append, hm a, hj, if_true, List.getElem?_cons_zero,
        Option.some_bind]
    | succ k =>
      have hlen : (f a).length ≤ (k + 1) * m + j := by
        rw [hm a, Nat.succ_mul]
        omega
      rw [List.flatMap_cons, List.getElem?_append_right hlen, hm a]
      have harith : (k + 1) * m + j - m = k * m + j := by
        rw [Nat.succ_mul]
        omega
      rw [harith, List.getElem?_cons_succ]
      exact ih k j (Nat.lt_of_succ_lt_succ hi) hj

/-- C3: for `step ∈ (0, 1]`, `create_coordinates step` has exactly
`⌈1/step⌉²` coordinates, each with both components in `[0, 1)`, enumerated
in row-major order: the entry at flat index `i·⌈1/step⌉ + j` is
`(i·step, j·step)`. -/
theorem create_coordinates_spec (step : ℚ) (h0 : 0 < step) (_h1 : step ≤ 1) :
    (create_coordinates step).length = Int.toNat ⌈1 / step⌉ ^ 2 ∧
    (∀ c ∈ create_coordinates step, 0 ≤ c.1 ∧ c.1 < 1 ∧ 0 ≤ c.2 ∧ c.2 < 1) ∧
    (∀ i j : ℕ, i < Int.toNat ⌈1 / step⌉ → j < Int.toNat ⌈1 / step⌉ →
      (create_coordinates step)[i * Int.toNat ⌈1 / step⌉ + j]? =
        some ((i : ℚ) * step, (j : ℚ) * step)) := by
  refine ⟨?_, ?_, ?_⟩
  · rw [create_coordinates, List.length_flatMap]
    have hconst : (List.length ∘ fun j : ℚ => (arange step).map (fun k => (j, k))) =
        fun _ : ℚ => Int.toNat ⌈1 / step⌉ := by
      funext a
      simp only [Function.comp_apply, List.length_map, arange_length]
    rw [hconst, List.map_const', List.sum_replicate, smul_eq_mul,
      arange_length, sq]
  · intro c hc
    simp only [create_coordinates, List.mem_flatMap, List.mem_map] at hc
    obtain ⟨j, hj, k, hk, rfl⟩ := hc
    obtain ⟨hj0, hj1⟩ := mem_arange_bounds step h0 j hj
    obtain ⟨hk0, hk1⟩ := mem_arange_bounds step h0 k hk
    exact ⟨hj0, hj1, hk0, hk1⟩
  · intro i j hi hj
    have hm : ∀ a : ℚ, ((arange step).map (fun k => (a, k))).length =
        Int.toNat ⌈1 / step⌉ := by
      intro a
      simp [arange_length]
    have hil : i < (arange step).length := by
      rw [arange_length]
      exact hi
    rw [create_coordinates,
      flatMap_uniform_getElem? _ _ hm (arange step) i j hil hj,
      arange_getElem?_of_lt step i hi]
    rw [Option.some_bind, List.getElem?_map, arange_getElem?_of_lt step j hj]
    rfl

/-- Witness for C3 at `step = 1/2`: a 2 × 2 grid of coordinates. -/
theorem create_coordinates_spec_witness :
    (create_coordinates (1/2 : ℚ)).length = Int.toNat ⌈1 / (1/2 : ℚ)⌉ ^ 2 ∧
    (∀ c ∈ create_coordinates (1/2 : ℚ),
      0 ≤ c.1 ∧ c.1 < 1 ∧ 0 ≤ c.2 ∧ c.2 < 1) ∧
    (∀ i j : ℕ, i < Int.toNat ⌈1 / (1/2 : ℚ)⌉ → j < Int.toNat ⌈1 / (1/2 : ℚ)⌉ →
      (create_coordinates (1/2 : ℚ))[i * Int.toNat ⌈1 / (1/2 : ℚ)⌉ + j]? =
        some ((i : ℚ) * (1/2), (j : ℚ) * (1/2))) :=
  create_coordinates_spec (1/2) (by norm_num) (by norm_num)

/-- C8: the roster built by `construct_tournament_elements` is the original
strategy instance at index 0, the dual at index 1, and the probe derived from
coordinate `i` at index `i + 2`, for a total length of
(number of coordinates) + 2. -/
theorem construct_tournament_elements_roster {S P : Type}
    (fp : AshlockFingerprint S P) (step : ℚ) :
    (construct_tournament_elements fp step).2.length =
      (create_coordinates step).length + 2 ∧
    (construct_tournament_elements fp step).2[0]? =
      some (RosterMember.strategyPlayer fp.strategy) ∧
    (construct_tournament_elements fp step).2[1]? =
      some (RosterMember.dualPlayer fp.strategy) ∧
    ∀ i : ℕ, (construct_tournament_elements fp step).2[i + 2]? =
      ((create_coordinates step)[i]?).map
        (fun c => RosterMember.probePlayer (create_jossann c fp.probe)) := by
  refine ⟨?_, ?_, ?_, ?_⟩
  · simp only [construct_tournament_elements, List.length_append,
      List.length_map, List.length_cons, create_probes]
    simp [Nat.add_comm]
  · show (RosterMember.strategyPlayer fp.strategy :: RosterMember.dualPlayer
        fp.strategy :: ((create_probes fp.probe (create_coordinates step)).map
          RosterMember.probePlayer))[0]? = _
    simp
  · show (RosterMember.strategyPlayer fp.strategy :: RosterMember.dualPlayer
        fp.strategy :: ((create_probes fp.probe (create_coordinates step)).map
          RosterMember.probePlayer))[1]? = _
    simp
  · intro i
    show (RosterMember.strategyPlayer fp.strategy :: RosterMember.dualPlayer
        fp.strategy :: ((create_probes fp.probe (create_coordinates step)).map
          RosterMember.probePlayer))[i + 2]? = _
    rw [List.getElem?_cons_succ, List.getElem?_cons_succ, create_probes,
      List.map_map, List.getElem?_map]
    rfl

/-- C10: the predicate that folds the parameters in `create_jossann` and the
predicate that selects the dual as edge source in `create_edges` are the same
(component sum strictly greater than 1): the edge of coordinate `i` has
source 1 exactly when the sum exceeds 1, in which case the parameters were
folded to `(1 − y, 1 − x)`, and source 0 exactly otherwise, in which case the
parameters are the unfolded `(x, y)`. -/
theorem fold_iff_dual_source {P : Type} (probe : P)
    (coordinates : List Point) (i : ℕ) (c : Point)
    (hc : coordinates[i]? = some c) :
    (create_edges coordinates)[i]? =
      some (if c.1 + c.2 > 1 then 1 else 0, i + 2) ∧
    (create_jossann c probe).params =
      (if c.1 + c.2 > 1 then (1 - c.2, 1 - c.1) else (c.1, c.2)) ∧
    (((create_edges coordinates)[i]?).map Prod.fst = some 1 ↔ c.1 + c.2 > 1) ∧
    (((create_edges coordinates)[i]?).map Prod.fst = some 0 ↔
      ¬ c.1 + c.2 > 1) := by
  have hedge := (create_edges_spec coordinates).2.1 i
  rw [hc] at hedge
  refine ⟨hedge, ?_, ?_, ?_⟩
  · by_cases h : c.1 + c.2 > 1
    · simp only [create_jossann, h, if_true]
    · simp only [create_jossann, h, if_false]
  · rw [hedge]
    by_cases h : c.1 + c.2 > 1 <;> simp [h]
  · rw [hedge]
    by_cases h : c.1 + c.2 > 1 <;> simp [h]

/-- Witness for C10 at the folded coordinate list `[(3/4, 3/4)]`. -/
theorem fold_iff_dual_source_witness :
    (create_edges [((3 : ℚ)/4, (3 : ℚ)/4)])[0]? =
      some (if (3 : ℚ)/4 + (3 : ℚ)/4 > 1 then 1 else 0, 0 + 2) ∧
    (create_jossann ((3 : ℚ)/4, (3 : ℚ)/4) (0 : ℕ)).params =
      (if (3 : ℚ)/4 + (3 : ℚ)/4 > 1 then (1 - (3 : ℚ)/4, 1 - (3 : ℚ)/4)
        else ((3 : ℚ)/4, (3 : ℚ)/4)) ∧
    (((create_edges [((3 : ℚ)/4, (3 : ℚ)/4)])[0]?).map Prod.fst = some 1 ↔
      (3 : ℚ)/4 + (3 : ℚ)/4 > 1) ∧
    (((create_edges [((3 : ℚ)/4, (3 : ℚ)/4)])[0]?).map Prod.fst = some 0 ↔
      ¬ (3 : ℚ)/4 + (3 : ℚ)/4 > 1) :=
  fold_iff_dual_source (0 : ℕ) [((3 : ℚ)/4, (3 : ℚ)/4)] 0
    (((3 : ℚ)/4, (3 : ℚ)/4)) rfl

theorem edge_scores_of_all_some {R : Type}
    (interactions : ℕ × ℕ → Option (List R)) (fspt : R → ℚ) :
    ∀ edges : List (ℕ × ℕ), (∀ e ∈ edges, (interactions e).isSome) →
      ∃ scores, edge_scores interactions fspt edges = some scores ∧
        scores.length = edges.length ∧
        ∀ (i : ℕ) (e : ℕ × ℕ) (recs : List R), edges[i]? = some e →
          interactions e = some recs →
          scores[i]? = some (npMean (recs.map fspt)) := by
  intro edges
  induction edges with
  | nil =>
    intro _
    refine ⟨[], rfl, rfl, ?_⟩
    intro i e recs he _
    simp at he
  | cons e0 rest ih =>
    intro hall
    obtain ⟨recs0, hr0⟩ := Option.isSome_iff_exists.mp
      (hall e0 (List.mem_cons_self e0 rest))
    obtain ⟨tail, ht, htlen, htidx⟩ :=
      ih (fun e he => hall e (List.mem_cons_of_mem e0 he))
    refine ⟨npMean (recs0.map fspt) :: tail, ?_, ?_, ?_⟩
    · rw [edge_scores, hr0, ht]
    · simp [htlen]
    · intro i e recs he hrecs
      cases i with
      | zero =>
        rw [List.getElem?_cons_zero] at he
        rw [List.getElem?_cons_zero]
        obtain rfl := Option.some_injective _ he
        rw [hr0] at hrecs
        obtain rfl := Option.some_injective _ hrecs
        rfl
      | succ k =>
        rw [List.getElem?_cons_succ] at he
        rw [List.getElem?_cons_succ]
        exact htidx k e recs he hrecs

theorem foldl_dictInsert_of_nodup_keys {K V : Type} [DecidableEq K] :
    ∀ (pairs d : List (K × V)),
      (((d ++ pairs).map Prod.fst).Nodup) →
      pairs.foldl (fun acc p => dictInsert acc p.1 p.2) d = d ++ pairs := by
  intro pairs
  induction pairs with
  | nil =>
    intro d _
    simp
  | cons p rest ih =>
    intro d hnd
    have hnotin : p.1 ∉ d.map Prod.fst := by
      intro hmem
      have : (d.map Prod.fst).Disjoint ((p :: rest).map Prod.fst) := by
        have := hnd
        rw [List.map_append] at this
        exact List.disjoint_of_nodup_append this
      exact this hmem (by simp)
    have hins : dictInsert d p.1 p.2 = d ++ [p] := by
      rw [dictInsert, if_neg, Prod.mk.eta]
      simp only [List.any_eq_true, decide_eq_true_eq, not_exists, not_and]
      intro q hq
      intro hqe
      exact hnotin (List.mem_map.mpr ⟨q, hq, hqe⟩)
    calc (p :: rest).foldl (fun acc q => dictInsert acc q.1 q.2) d
        = rest.foldl (fun acc q => dictInsert acc q.1 q.2) (d ++ [p]) := by
          rw [List.foldl_cons, hins]
      _ = (d ++ [p]) ++ rest := by
          apply ih
          rw [List.append_assoc]
          simpa using hnd
      _ = d ++ (p :: rest) := by simp

theorem pyDict_eq_self {K V : Type} [DecidableEq K] (pairs : List (K × V))
    (h : (pairs.map Prod.fst).Nodup) : pyDict pairs = pairs := by
  have := foldl_dictInsert_of_nodup_keys pairs []
  rw [List.nil_append] at this
  exact this h

theorem dictGet_zip {K V : Type} [DecidableEq K] :
    ∀ (ks : List K) (vs : List V) (i : ℕ) (k : K) (v : V),
      ks.Nodup → ks[i]? = some k → vs[i]? = some v →
      dictGet (ks.zip vs) k = some v := by
  intro ks
  induction ks with
  | nil =>
    intro vs i k v _ hk _
    simp at hk
  | cons a rest ih =>
    intro vs i k v hnd hk hv
    cases vs with
    | nil => simp at hv
    | cons b vrest =>
      cases i with
      | zero =>
        rw [List.getElem?_cons_zero] at hk hv
        obtain rfl := Option.some_injective _ hk
        obtain rfl := Option.some_injective _ hv
        rw [List.zip_cons_cons, dictGet, if_pos rfl]
      | succ j =>
        rw [List.getElem?_cons_succ] at hk hv
        have hkmem : k ∈ rest := by
          obtain ⟨hlt, hget⟩ := List.getElem?_eq_some.mp hk
          exact hget ▸ List.getElem_mem hlt
        have hne : a ≠ k := by
          intro hak
          exact (List.nodup_cons.mp hnd).1 (hak ▸ hkmem)
        rw [List.zip_cons_cons, dictGet, if_neg hne]
        exact ih vrest j k v (List.nodup_cons.mp hnd).2 hk hv

/-- C4: when the interaction collection has records for every edge,
`generate_data` returns one score per coordinate, its keys in order
reproduce the coordinate sequence, and the score of `coordinates[i]` is the
mean over repetitions of the final score per turn of the records keyed by
`edges[i]`. -/
theorem generate_data_complete {R : Type}
    (interactions : ℕ × ℕ → Option (List R)) (fspt : R → ℚ)
    (coordinates : List Point) (edges : List (ℕ × ℕ))
    (hnd : coordinates.Nodup) (hlen : edges.length = coordinates.length)
    (hall : ∀ e ∈ edges, (interactions e).isSome) :
    ∃ d, generate_data interactions fspt coordinates edges = some d ∧
      d.length = coordinates.length ∧
      d.map Prod.fst = coordinates ∧
      ∀ (i : ℕ) (e : ℕ × ℕ) (recs : List R), edges[i]? = some e →
        interactions e = some recs →
        ∃ c, coordinates[i]? = some c ∧
          dictGet d c = some (npMean (recs.map fspt)) := by
  obtain ⟨scores, hs, hslen, hsidx⟩ :=
    edge_scores_of_all_some interactions fspt edges hall
  have hsc : coordinates.length ≤ scores.length := by
    rw [hslen, hlen]
  have hfst : (coordinates.zip scores).map Prod.fst = coordinates :=
    List.map_fst_zip coordinates scores hsc
  have hpd : pyDict (coordinates.zip scores) = coordinates.zip scores := by
    apply pyDict_eq_self
    rw [hfst]
    exact hnd
  refine ⟨coordinates.zip scores, ?_, ?_, hfst, ?_⟩
  · rw [generate_data, hs]
    show some (pyDict (coordinates.zip scores)) = some (coordinates.zip scores)
    rw [hpd]
  · rw [List.length_zip]
    omega
  · intro i e recs he hrecs
    have hi : i < coordinates.length := by
      obtain ⟨hlt, _⟩ := List.getElem?_eq_some.mp he
      omega
    refine ⟨coordinates[i], List.getElem?_eq_getElem hi, ?_⟩
    exact dictGet_zip coordinates scores i coordinates[i] _ hnd
      (List.getElem?_eq_getElem hi) (hsidx i e recs he hrecs)

/-- Witness for C4 on a one-coordinate run with a single record. -/
theorem generate_data_complete_witness :
    ∃ d, generate_data
        (fun e => if e = (0, 2) then some [(3 : ℚ)] else none) (fun r => r)
        [((0 : ℚ), (0 : ℚ))] [(0, 2)] = some d ∧
      d.length = [((0 : ℚ), (0 : ℚ))].length ∧
      d.map Prod.fst = [((0 : ℚ), (0 : ℚ))] ∧
      ∀ (i : ℕ) (e : ℕ × ℕ) (recs : List ℚ), [((0 : ℕ), (2 : ℕ))][i]? = some e →
        (if e = ((0 : ℕ), (2 : ℕ)) then some [(3 : ℚ)] else none) = some recs →
        ∃ c, [((0 : ℚ), (0 : ℚ))][i]? = some c ∧
          dictGet d c = some (npMean (recs.map (fun r => r))) :=
  generate_data_complete (fun e => if e = (0, 2) then some [(3 : ℚ)] else none)
    (fun r => r) [((0 : ℚ), (0 : ℚ))] [(0, 2)]
    (List.nodup_singleton _) rfl (by decide)

theorem edge_scores_none_of_missing {R : Type}
    (interactions : ℕ × ℕ → Option (List R)) (fspt : R → ℚ) :
    ∀ (edges : List (ℕ × ℕ)) (e : ℕ × ℕ), e ∈ edges →
      interactions e = none →
      edge_scores interactions fspt edges = none := by
  intro edges
  induction edges with
  | nil =>
    intro e he _
    simp at he
  | cons e0 rest ih =>
    intro e he hmiss
    rcases List.mem_cons.mp he with rfl | hrest
    · rw [edge_scores, hmiss]
    · rw [edge_scores]
      cases h0 : interactions e0 with
      | none => rfl
      | some recs0 =>
        rw [ih e hrest hmiss]

/-- C6: when the interaction collection is missing the records of any edge
in the edge list, `generate_data` fails (returns `none`), rather than
defaulting or omitting that coordinate. -/
theorem generate_data_missing_edge {R : Type}
    (interactions : ℕ × ℕ → Option (List R)) (fspt : R → ℚ)
    (coordinates : List Point) (edges : List (ℕ × ℕ)) (e : ℕ × ℕ)
    (he : e ∈ edges) (hmiss : interactions e = none) :
    generate_data interactions fspt coordinates edges = none := by
  rw [generate_data, edge_scores_none_of_missing interactions fspt edges e he hmiss]

/-- Witness for C6: an interaction collection with no record at all makes
`generate_data` fail on a one-edge list. -/
theorem generate_data_missing_edge_witness :
    generate_data (fun _ => (none : Option (List ℚ))) (fun r => r)
      [((0 : ℚ), (0 : ℚ))] [(0, 2)] = none :=
  generate_data_missing_edge (fun _ => none) (fun r => r)
    [((0 : ℚ), (0 : ℚ))] [(0, 2)] (0, 2) (List.mem_singleton.mpr rfl) rfl

theorem reshapeRows_spec (c : ℕ) :
    ∀ (r : ℕ) (xs : List ℚ), xs.length = r * c →
      (reshapeRows xs c r).length = r ∧
      (∀ row ∈ reshapeRows xs c r, row.length = c) ∧
      (reshapeRows xs c r).flatten = xs := by
  intro r
  induction r with
  | zero =>
    intro xs hx
    have hnil : xs = [] := List.eq_nil_of_length_eq_zero (by simpa using hx)
    subst hnil
    refine ⟨rfl, ?_, rfl⟩
    intro row hrow
    simp [reshapeRows] at hrow
  | succ k ih =>
    intro xs hx
    have hc : c ≤ xs.length := by
      rw [hx, Nat.succ_mul]
      omega
    have hdrop : (xs.drop c).length = k * c := by
      rw [List.length_drop, hx, Nat.succ_mul]
      omega
    obtain ⟨ihl, ihrow, ihfl⟩ := ih (xs.drop c) hdrop
    refine ⟨?_, ?_, ?_⟩
    · rw [reshapeRows, List.length_cons, ihl]
    · intro row hrow
      rw [reshapeRows] at hrow
      rcases List.mem_cons.mp hrow with rfl | hmem
      · rw [List.length_take]
        omega
      · exact ihrow row hmem
    · rw [reshapeRows, List.flatten_cons, ihfl, List.take_append_drop]

/-- C5: `plot` orders the scores by the original coordinates and reshapes
them into a square grid of side `⌊1/step⌋`; it fails (raises, modelled as
`none`) exactly when the number of scores is not the square of that side,
and on success the grid has that side, row-major, with no truncation. -/
theorem plot_reshapes_square (st : FingerprintState) (xs : List ℚ)
    (h : ordered_data st.data st.coordinates = some xs) :
    (xs.length ≠
        Int.toNat ⌊(1 : ℚ) / st.step⌋ * Int.toNat ⌊(1 : ℚ) / st.step⌋ →
      plot st = none) ∧
    (xs.length =
        Int.toNat ⌊(1 : ℚ) / st.step⌋ * Int.toNat ⌊(1 : ℚ) / st.step⌋ →
      ∃ rows, plot st = some rows ∧
        rows.length = Int.toNat ⌊(1 : ℚ) / st.step⌋ ∧
        (∀ row ∈ rows, row.length = Int.toNat ⌊(1 : ℚ) / st.step⌋) ∧
        rows.flatten = xs) := by
  constructor
  · intro hne
    rw [plot, h]
    show npReshape xs _ _ = none
    rw [npReshape, if_neg hne]
  · intro heq
    obtain ⟨hl, hrow, hfl⟩ :=
      reshapeRows_spec (Int.toNat ⌊(1 : ℚ) / st.step⌋)
        (Int.toNat ⌊(1 : ℚ) / st.step⌋) xs heq
    refine ⟨reshapeRows xs (Int.toNat ⌊(1 : ℚ) / st.step⌋)
      (Int.toNat ⌊(1 : ℚ) / st.step⌋), ?_, hl, hrow, hfl⟩
    rw [plot, h]
    show npReshape xs _ _ = _
    rw [npReshape, if_pos heq]

/-- Witness for C5: a one-score state with `step = 1` reshapes to the 1 × 1
grid. -/
theorem plot_reshapes_square_witness :
    (([(5 : ℚ)] : List ℚ).length ≠
        Int.toNat ⌊(1 : ℚ) / (1 : ℚ)⌋ * Int.toNat ⌊(1 : ℚ) / (1 : ℚ)⌋ →
      plot ⟨1, [((0 : ℚ), (0 : ℚ))], [(((0 : ℚ), (0 : ℚ)), (5 : ℚ))]⟩ =
        none) ∧
    (([(5 : ℚ)] : List ℚ).length =
        Int.toNat ⌊(1 : ℚ) / (1 : ℚ)⌋ * Int.toNat ⌊(1 : ℚ) / (1 : ℚ)⌋ →
      ∃ rows, plot ⟨1, [((0 : ℚ), (0 : ℚ))], [(((0 : ℚ), (0 : ℚ)), (5 : ℚ))]⟩ =
          some rows ∧
        rows.length = Int.toNat ⌊(1 : ℚ) / (1 : ℚ)⌋ ∧
        (∀ row ∈ rows, row.length = Int.toNat ⌊(1 : ℚ) / (1 : ℚ)⌋) ∧
        rows.flatten = [(5 : ℚ)]) :=
  plot_reshapes_square ⟨1, [((0 : ℚ), (0 : ℚ))], [(((0 : ℚ), (0 : ℚ)), (5 : ℚ))]⟩
    [(5 : ℚ)] (by decide)

theorem arange_nodup (step : ℚ) (h0 : 0 < step) : (arange step).Nodup := by
  rw [arange]
  refine List.Nodup.map ?_ (List.nodup_range _)
  intro a b hab
  have hstep : step ≠ 0 := ne_of_gt h0
  have : (a : ℚ) = (b : ℚ) := mul_right_cancel₀ hstep hab
  exact_mod_cast this

theorem create_coordinates_nodup (step : ℚ) (h0 : 0 < step) :
    (create_coordinates step).Nodup :=
  List.Nodup.product (arange_nodup step h0) (arange_nodup step h0)
